import Mathlib

/-!
Verification of the acmeDeliver certificate-distribution core.

Go strings are modelled as lists of characters (`GoStr`); Go maps keyed by
strings or client pointers are modelled as association lists whose delete
operation removes every occurrence of the key, and clients are identified by
abstract ids (the Go code identifies them by pointer).  The filesystem under
the certificate base directory is modelled as a list of domain directories,
each holding a list of (filename, content) pairs.
-/

namespace AcmeDeliver

/-- Go strings, modelled as lists of characters. -/
abbrev GoStr := List Char

/-- Coercion from Lean string literals to the Go string model. -/
def str (s : String) : GoStr := s.data

abbrev ClientId := Nat

/-- Embeds `matchWildcard` (hub source, lines 232-246): the guard
`len(pattern) < 2 || pattern[0] != '*' || pattern[1] != '.'`, then
`suffix := pattern[1:]`, the length test, and the trailing-slice comparison
`domain[len(domain)-len(suffix):] == suffix`. -/
def matchWildcard (pattern domain : GoStr) : Bool :=
  if pattern.length < 2 ∨ pattern.get? 0 ≠ some '*' ∨ pattern.get? 1 ≠ some '.' then false
  else
    let suffix : GoStr := pattern.drop 1
    if domain.length ≤ suffix.length then false
    else decide (domain.drop (domain.length - suffix.length) = suffix)

/-! ### The Hub's subscription index

`Hub.subscriptions` is `map[string]map[*Client]bool`; we model the outer map
as an association list from patterns to subscriber lists, the inner set as a
duplicate-free list. -/

abbrev Subscriptions := List (GoStr × List ClientId)

/-- Lookup of `h.subscriptions[k]` (`ok` is `isSome`). -/
def subsLookup (m : Subscriptions) (k : GoStr) : Option (List ClientId) :=
  match m with
  | [] => none
  | (k', v) :: rest => if k = k' then some v else subsLookup rest k

/-- Insertion into the inner `map[*Client]bool`: a no-op when the client is
already present. -/
def addClient (v : List ClientId) (c : ClientId) : List ClientId :=
  if c ∈ v then v else v ++ [c]

/-- Embeds `h.subscriptions[domain][client] = true` together with the
`make` of the inner map when absent (`registerClient`, lines 58-63). -/
def subsInsert (m : Subscriptions) (k : GoStr) (c : ClientId) : Subscriptions :=
  match m with
  | [] => [(k, [c])]
  | (k', v) :: rest =>
      if k = k' then (k', addClient v c) :: rest
      else (k', v) :: subsInsert rest k c

/-- Embeds the removal step of `unregisterClient`/`UpdateSubscription`
(lines 81-88, 104-111): `delete(subs, client)` and, when the inner map becomes
empty, `delete(h.subscriptions, domain)`. -/
def subsRemove (m : Subscriptions) (k : GoStr) (c : ClientId) : Subscriptions :=
  match m with
  | [] => []
  | (k', v) :: rest =>
      if k = k' then
        if v.filter (fun x => decide (x ≠ c)) = [] then rest
        else (k', v.filter (fun x => decide (x ≠ c))) :: rest
      else (k', v) :: subsRemove rest k c

/-- The Hub's mutable state together with the per-client fields the Hub reads:
`clients` is `map[*Client]bool`, `domainsOf c` is the `domains` field of client
`c`, and `closeCount c` counts how many times `close(c.send)` has run (Go
panics when it exceeds one). -/
structure HubState where
  clients : List ClientId
  subscriptions : Subscriptions
  domainsOf : ClientId → List GoStr
  closeCount : ClientId → Nat

/-- Embeds `Hub.registerClient` (lines 50-69): add to the live set and index
the client under every one of its subscribed domains. -/
def registerClient (st : HubState) (c : ClientId) : HubState :=
  { st with
    clients := addClient st.clients c,
    subscriptions := (st.domainsOf c).foldl (fun m d => subsInsert m d c) st.subscriptions }

/-- Embeds `Hub.unregisterClient` (lines 71-96): early return when the client
is unknown; otherwise remove it from every subscribed domain's set, drop it
from the live set and close its send channel. -/
def unregisterClient (st : HubState) (c : ClientId) : HubState :=
  if c ∈ st.clients then
    { st with
      clients := st.clients.filter (fun x => decide (x ≠ c)),
      subscriptions := (st.domainsOf c).foldl (fun m d => subsRemove m d c) st.subscriptions,
      closeCount := fun x => if x = c then st.closeCount c + 1 else st.closeCount x }
  else st

/-- Embeds `Hub.UpdateSubscription` (lines 98-127): remove the old index
entries, overwrite the client's domain list, install the new entries. -/
def updateSubscription (st : HubState) (c : ClientId) (newDomains : List GoStr) : HubState :=
  { st with
    subscriptions :=
      newDomains.foldl (fun m d => subsInsert m d c)
        ((st.domainsOf c).foldl (fun m d => subsRemove m d c) st.subscriptions),
    domainsOf := fun x => if x = c then newDomains else st.domainsOf x }

/-- Embeds `Hub.GetSubscribers` (lines 164-195): the de-duplicated union of
the exact-match entry and every wildcard-matching entry. -/
def getSubscribers (st : HubState) (domain : GoStr) : List ClientId :=
  let base : List ClientId :=
    match subsLookup st.subscriptions domain with
    | some v => v.foldl addClient []
    | none => []
  st.subscriptions.foldl
    (fun acc e => if matchWildcard e.1 domain then e.2.foldl addClient acc else acc) base

/-- Embeds `Hub.BroadcastCert` (lines 197-230) at the level the claims need:
the non-blocking enqueue on `client.send` succeeds exactly for the subscribers
whose mailbox has space (`hasSpace`), and the returned value is the count of
successful enqueues. -/
def broadcastCert (st : HubState) (hasSpace : ClientId → Bool) (domain : GoStr) : Nat :=
  ((getSubscribers st domain).filter hasSpace).length

/-! ### Filesystem model and the sync / request paths -/

/-- One first-level subdirectory of the certificate base directory. -/
structure DomainDir where
  name : GoStr
  files : List (GoStr × GoStr)
deriving DecidableEq

/-- The certificate base directory: its first-level subdirectories (plain
files directly under the base directory are skipped by every reader we embed
and are therefore not modelled). -/
abbrev BaseDir := List DomainDir

/-- Lookup of a file's content inside a domain directory;
`none` models the `os.ReadFile` error for an absent file. -/
def lookupFile (files : List (GoStr × GoStr)) (n : GoStr) : Option GoStr :=
  match files with
  | [] => none
  | (n', content) :: rest => if n = n' then some content else lookupFile rest n

/-- Find a domain's directory under the base directory. -/
def findDir (base : BaseDir) (d : GoStr) : Option DomainDir :=
  match base with
  | [] => none
  | dir :: rest => if dir.name = d then some dir else findDir rest d

/-- ASCII whitespace as trimmed by `strings.TrimSpace`. -/
def isSpaceChar (c : Char) : Bool :=
  decide (c = ' ' ∨ c = '\t' ∨ c = '\n' ∨ c = '\r' ∨ c = '\x0b' ∨ c = '\x0c')

/-- Embeds `strings.TrimSpace` (leading and trailing whitespace removed). -/
def trimSpace (s : GoStr) : GoStr :=
  ((s.dropWhile isSpaceChar).reverse.dropWhile isSpaceChar).reverse

/-- Decimal digit parsing for `strconv.ParseInt`. -/
def parseNatAux : GoStr → Option Nat
  | [] => none
  | cs => go cs 0
where
  go : GoStr → Nat → Option Nat
    | [], acc => some acc
    | c :: rest, acc =>
        if '0' ≤ c ∧ c ≤ '9' then go rest (acc * 10 + (c.toNat - '0'.toNat))
        else none

/-- Embeds `strconv.ParseInt(s, 10, 64)`: optional sign then decimal digits;
`none` models the parse error.  (At the ten characters the callers feed it the
int64 range check can never fire and is omitted.) -/
def parseGoInt (s : GoStr) : Option Int :=
  match s with
  | '+' :: rest => (parseNatAux rest).map Int.ofNat
  | '-' :: rest => (parseNatAux rest).map (fun n => -(n : Int))
  | _ => (parseNatAux s).map Int.ofNat

/-- Embeds `Client.readServerTimestamp` (client source, lines 544-561):
read `<domain>/time.log`, trim, keep the first ten characters, parse;
every failure path returns 0. -/
def readServerTimestamp (base : BaseDir) (d : GoStr) : Int :=
  match findDir base d with
  | none => 0
  | some dir =>
      match lookupFile dir.files (str "time.log") with
      | none => 0
      | some content =>
          let ts0 := trimSpace content
          let ts := if 10 < ts0.length then ts0.take 10 else ts0
          match parseGoInt ts with
          | some t => t
          | none => 0

/-- The fixed file list of `Client.handleCertRequest` (line 389) and
`Client.pushCertToDomain` (line 569). -/
def fixedCertNames : List GoStr :=
  [str "cert.pem", str "key.pem", str "fullchain.pem", str "time.log"]

/-- Embeds the file-collection loop shared verbatim by
`Client.handleCertRequest` (lines 388-397) and `Client.pushCertToDomain`
(lines 568-577): read each of the four fixed filenames, keeping those that
exist. -/
def collectFixedFiles (base : BaseDir) (d : GoStr) : List (GoStr × GoStr) :=
  match findDir base d with
  | none => []
  | some dir =>
      fixedCertNames.filterMap fun n => (lookupFile dir.files n).map fun content => (n, content)

/-- Embeds the return value of `Client.pushCertToDomain` (lines 563-616):
`false` when none of the fixed files exists, when building the push message
fails (`NewMessage`, an external JSON encoding whose outcome is supplied by
`newMessageOK`), or when the non-blocking send on the 256-slot `send` buffer
takes the `select`/`default` branch (`hasSpace` supplies whether the buffer
has space at the moment this domain is pushed); `true` only when the message
is built and enqueued. -/
def pushCertToDomain (base : BaseDir) (newMessageOK hasSpace : GoStr → Bool)
    (d : GoStr) : Bool :=
  if collectFixedFiles base d = [] then false
  else if newMessageOK d then hasSpace d
  else false

/-- Go map indexing `clientTimestamps[domain]`: the zero value 0 when the key
is absent. -/
def tsLookup (m : List (GoStr × Int)) (k : GoStr) : Int :=
  match m with
  | [] => 0
  | (k', v) :: rest => if k = k' then v else tsLookup rest k

/-- Embeds `Client.syncAllDomains` (lines 509-542): scan every domain
directory, skip those whose server timestamp is 0, attempt the push when the
server timestamp is strictly newer than the client's (0 when unreported).
Returns the list of successfully pushed domains; the source's `pushedCount`
is its length.  `newMessageOK` and `hasSpace` carry the external outcomes of
`pushCertToDomain`. -/
def syncAllDomains (base : BaseDir) (newMessageOK hasSpace : GoStr → Bool)
    (clientTS : List (GoStr × Int)) : List GoStr :=
  base.filterMap fun dir =>
    if readServerTimestamp base dir.name = 0 then none
    else if tsLookup clientTS dir.name < readServerTimestamp base dir.name then
      (if pushCertToDomain base newMessageOK hasSpace dir.name then some dir.name else none)
    else none

/-- One iteration of the subscription loop of `Client.handleSyncRequest`
(lines 480-504): the global pattern delegates to `syncAllDomains`; otherwise
compare the server's timestamp with the client's. -/
def syncOneDomain (base : BaseDir) (newMessageOK hasSpace : GoStr → Bool)
    (clientTS : List (GoStr × Int)) (domain : GoStr) : List GoStr :=
  if domain = str "*" then syncAllDomains base newMessageOK hasSpace clientTS
  else
    if readServerTimestamp base domain = 0 then []
    else if tsLookup clientTS domain < readServerTimestamp base domain then
      (if pushCertToDomain base newMessageOK hasSpace domain then [domain] else [])
    else []

/-- Embeds `Client.handleSyncRequest` (lines 467-507): the loop over the
session's subscribed domains, rendered as the concatenation of the per-domain
contributions; returns the pushed domains in order. -/
def handleSyncRequest (base : BaseDir) (newMessageOK hasSpace : GoStr → Bool)
    (subscribed : List GoStr) (clientTS : List (GoStr × Int)) : List GoStr :=
  (subscribed.map (syncOneDomain base newMessageOK hasSpace clientTS)).flatten

/-! ### Signature verification and authentication -/

/-- Embeds `strconv.FormatInt(i, 10)`. -/
def formatInt (i : Int) : GoStr :=
  if i < 0 then '-' :: Nat.toDigits 10 i.natAbs else Nat.toDigits 10 i.natAbs

/-- Embeds `SignatureVerifier.GenerateSignature` (signature.go, lines 39-44):
the hex-encoded SHA-256 digest is an external primitive (out of scope per the
spec), passed in as the function `hash`. -/
def generateSignature (hash : GoStr → GoStr) (password : GoStr) (timestamp : Int) : GoStr :=
  hash (password ++ formatInt timestamp)

/-- Embeds `SignatureVerifier.VerifySignature` (signature.go, lines 46-64).
`now` is the explicit receipt time (`time.Now().Unix()`);
`subtle.ConstantTimeCompare(x, y) == 1` holds exactly when the byte strings
are equal and is modelled as equality. -/
def verifySignature (hash : GoStr → GoStr) (password : GoStr) (tolerance : Int)
    (signature : GoStr) (timestamp now : Int) : Bool × GoStr :=
  if timestamp < now - tolerance ∨ timestamp > now + tolerance then
    (false, str "时间戳已过期")
  else if signature ≠ generateSignature hash password timestamp then
    (false, str "签名验证失败")
  else (true, str "")

/-- `DefaultTimestampTolerance` (signature.go, line 14). -/
def defaultTimestampTolerance : Int := 30

/-- The parsed `AuthRequest` payload (message.go, lines 60-64). -/
structure AuthRequest where
  clientID : GoStr
  signature : GoStr
  domains : List GoStr
deriving DecidableEq

/-- The per-connection session fields `HandleAuth` touches. -/
structure ClientState where
  id : GoStr
  domains : List GoStr
  authenticated : Bool
deriving DecidableEq

/-- The observable outcome of `AuthHandler.HandleAuth`: the session state, the
Hub after the (possibly absent) registration, the boolean the handler returns,
and the `auth_result` payload it sends. -/
structure AuthOutcome where
  client : ClientState
  hub : HubState
  accepted : Bool
  response : Bool × GoStr

/-- Embeds `AuthHandler.HandleAuth` (client source, lines 154-179) for an
already-parsed request: verify, then either set the client's identity,
domains and authenticated flag and register with the Hub, or send a rejection
and leave everything unchanged.  `c` is the connection's id; `msgTimestamp` is
the envelope timestamp the signature covers. -/
def handleAuth (hash : GoStr → GoStr) (password : GoStr) (tolerance : Int)
    (st : HubState) (c : ClientId) (cs : ClientState) (req : AuthRequest)
    (msgTimestamp now : Int) : AuthOutcome :=
  if (verifySignature hash password tolerance req.signature msgTimestamp now).1 then
    { client := ⟨req.clientID, req.domains, true⟩,
      hub := registerClient
        { st with domainsOf := fun x => if x = c then req.domains else st.domainsOf x } c,
      accepted := true,
      response := (true, str "认证成功") }
  else
    { client := cs, hub := st, accepted := false,
      response := (false, (verifySignature hash password tolerance req.signature msgTimestamp now).2) }

/-! ### Session message dispatch -/

/-- The effect a single `Client.handleMessage` dispatch (client source, lines
225-295) has, abstracting the payload handling each branch performs. -/
inductive SessionEffect
  | handleAuth
  | sendPong
  | logAck
  | sendError401
  | doUpdateSubscription
  | doCertRequest
  | doStatusRequest
  | doSyncRequest
  | ignore
deriving DecidableEq

/-- Embeds the `switch msg.Type` of `Client.handleMessage` (lines 225-295).
The `subscribe` branch builds the same 401 "请先进行认证" error inline that
`sendAuthError` sends, so both are rendered as `sendError401`; the default
branch for an authenticated client does nothing. -/
def dispatchMessage (msgType : GoStr) (authenticated : Bool) : SessionEffect :=
  if msgType = str "auth" then .handleAuth
  else if msgType = str "ping" then .sendPong
  else if msgType = str "cert_ack" then .logAck
  else if msgType = str "subscribe" then
    (if authenticated then .doUpdateSubscription else .sendError401)
  else if msgType = str "cert_request" then
    (if authenticated then .doCertRequest else .sendError401)
  else if msgType = str "status_request" then
    (if authenticated then .doStatusRequest else .sendError401)
  else if msgType = str "sync_request" then
    (if authenticated then .doSyncRequest else .sendError401)
  else (if authenticated then .ignore else .sendError401)

/-! ### Watcher file recognition -/

/-- Embeds `filepath.Ext`: the suffix starting at the final dot of the final
path element, empty when there is none. -/
def goExtAux (rev : GoStr) (acc : GoStr) : GoStr :=
  match rev with
  | [] => []
  | c :: rest => if c = '/' then [] else if c = '.' then c :: acc else goExtAux rest (c :: acc)

/-- See `goExtAux`. -/
def goExt (name : GoStr) : GoStr := goExtAux name.reverse []

/-- The fixed well-known filenames of `isCertFile` (watcher.go, lines 249-257). -/
def wellKnownCertNames : List GoStr :=
  [str "cert.pem", str "key.pem", str "fullchain.pem", str "chain.pem",
   str "ca.cer", str "cert.cer", str "fullchain.cer"]

/-- The extensions `isCertFile` accepts (watcher.go, lines 266-269). -/
def certExts : List GoStr := [str ".pem", str ".cer", str ".crt", str ".key"]

/-- Embeds `isCertFile` (watcher.go, lines 247-273). -/
def isCertFile (name : GoStr) : Bool :=
  if name ∈ wellKnownCertNames then true
  else if goExt name ∈ certExts then true
  else false

/-- Embeds `CertWatcher.readCertFiles` (watcher.go, lines 214-245): every
plain file of the domain directory whose name `isCertFile` accepts
(subdirectory entries are skipped by the source and absent from the model). -/
def readCertFiles (base : BaseDir) (d : GoStr) : List (GoStr × GoStr) :=
  match findDir base d with
  | none => []
  | some dir => dir.files.filter fun f => isCertFile f.1

/-! ### Daemon deploy-site lookup -/

/-- Embeds `config.SiteDeployConfig` (config source, lines 579-585). -/
structure SiteDeployConfig where
  domain : GoStr
  certPath : GoStr
  keyPath : GoStr
  fullchainPath : GoStr
  reloadCmd : GoStr
deriving DecidableEq

/-- Embeds `Daemon.findSiteConfig` (daemon.go, lines 340-356) and the
identical `findSiteConfig` of the client main package: scan the configured
sites in order; each entry matches by exact equality or, when it starts with
`*.`, by its dot-suffix. -/
def findSiteConfig (sites : List SiteDeployConfig) (domain : GoStr) :
    Option SiteDeployConfig :=
  match sites with
  | [] => none
  | site :: rest =>
      if site.domain = domain then some site
      else if (str "*.") <+: site.domain ∧ (site.domain.drop 1) <:+ domain then some site
      else findSiteConfig rest domain

/-- One site entry matching one domain, as `findSiteConfig` tests it. -/
def siteMatches (site : SiteDeployConfig) (domain : GoStr) : Prop :=
  site.domain = domain ∨ ((str "*.") <+: site.domain ∧ (site.domain.drop 1) <:+ domain)

instance (site : SiteDeployConfig) (domain : GoStr) : Decidable (siteMatches site domain) := by
  unfold siteMatches; infer_instance

/-! ### Derived predicates used by the statements -/

/-- Client `x` is indexed under pattern `k`: the lookup-level membership the
Hub's map operations manipulate. -/
def subsMem (m : Subscriptions) (k : GoStr) (x : ClientId) : Prop :=
  ∃ v, subsLookup m k = some v ∧ x ∈ v

/-- Well-formedness of the subscription index as a pair of Go maps: pattern
keys are unique, and every subscriber set is duplicate-free (each
(pattern, connection) pair indexed at most once) and non-empty (entries whose
set becomes empty are deleted). -/
def IndexWF (m : Subscriptions) : Prop :=
  (m.map Prod.fst).Nodup ∧ ∀ e ∈ m, e.2.Nodup ∧ e.2 ≠ []

instance (m : Subscriptions) : Decidable (IndexWF m) := by
  unfold IndexWF; infer_instance

/-- Every index entry holding client `c` is listed in `c`'s current domain
list — the condition under which deregistration can reach all of `c`'s
entries.  Normal operation maintains it; a re-authentication that overwrites
the domain list breaks it. -/
def Covered (st : HubState) (c : ClientId) : Prop :=
  ∀ e ∈ st.subscriptions, c ∈ e.2 → e.1 ∈ st.domainsOf c

instance (st : HubState) (c : ClientId) : Decidable (Covered st c) := by
  unfold Covered; infer_instance

/-- The spec's wildcard-resolution condition for claim C1: `P` equals `D`, or
`P` is `*.S` with `D` ending in `.S` and `len D > len S + 1`. -/
def resolvesSpec (P D : GoStr) : Prop :=
  P = D ∨ ∃ S : GoStr, P = '*' :: '.' :: S ∧ ('.' :: S) <:+ D ∧ S.length + 1 < D.length

/-! ### Concrete states used by counterexamples and witnesses -/

/-- A hub with a single client subscribed only under the global pattern. -/
def starHub : HubState :=
  { clients := [1],
    subscriptions := [(str "*", [1])],
    domainsOf := fun _ => [str "*"],
    closeCount := fun _ => 0 }

/-- A hub with client 1 subscribed to an exact and a wildcard pattern and
client 2 to the wildcard only. -/
def demoHub : HubState :=
  { clients := [1, 2],
    subscriptions := [(str "a.com", [1]), (str "*.example.com", [1, 2])],
    domainsOf := fun x =>
      if x = 1 then [str "a.com", str "*.example.com"] else [str "*.example.com"],
    closeCount := fun _ => 0 }

/-- The store of the spec's sync example: timestamps 150 / 200 / 50. -/
def syncStore : BaseDir :=
  [ ⟨str "a.com", [(str "cert.pem", str "certA"), (str "time.log", str "150")]⟩,
    ⟨str "b.com", [(str "cert.pem", str "certB"), (str "time.log", str "200")]⟩,
    ⟨str "c.com", [(str "cert.pem", str "certC"), (str "time.log", str "50")]⟩ ]

/-- The client timestamps of the spec's sync example. -/
def syncClientTS : List (GoStr × Int) := [(str "a.com", 100), (str "b.com", 200)]

/-- A domain directory holding a recognized file outside the fixed four. -/
def chainDir : BaseDir :=
  [⟨str "example.com",
    [(str "cert.pem", str "certdata"), (str "chain.pem", str "chaindata")]⟩]

/-- A wildcard site entry listed before an exact one. -/
def siteWild : SiteDeployConfig :=
  ⟨str "*.example.com", str "/w/cert.pem", str "/w/key.pem", str "/w/fc.pem", str "reload-w"⟩

/-- An exact site entry for `a.example.com`, listed after the wildcard. -/
def siteExact : SiteDeployConfig :=
  ⟨str "a.example.com", str "/e/cert.pem", str "/e/key.pem", str "/e/fc.pem", str "reload-e"⟩

/-- A concrete stand-in for the external hash primitive, used only to
instantiate witnesses. -/
def idHash : GoStr → GoStr := fun s => s

/-- The hub of a freshly started server process. -/
def emptyHub : HubState :=
  { clients := [], subscriptions := [], domainsOf := fun _ => [], closeCount := fun _ => 0 }

/-- The hub after connection 1 authenticates subscribing to `a.com` and then,
on the same connection, authenticates again subscribing to `b.com`: the
session dispatches `auth` with no authenticated guard, so the second
`HandleAuth` overwrites `client.domains` and re-registers, leaving the stale
`a.com` index entry behind. -/
def reAuthHub : HubState :=
  (handleAuth idHash (str "pw") 30
    (handleAuth idHash (str "pw") 30 emptyHub 1 ⟨str "", [], false⟩
      ⟨str "node", str "pw1000", [str "a.com"]⟩ 1000 1000).hub
    1 ⟨str "node", [str "a.com"], true⟩
    ⟨str "node", str "pw1000", [str "b.com"]⟩ 1000 1000).hub

/-! ## Supporting lemmas -/

theorem drop_sub_length_eq_iff_suffix (s l : GoStr) :
    l.drop (l.length - s.length) = s ↔ s <:+ l := by
  constructor
  · intro h
    exact h ▸ List.drop_suffix _ _
  · rintro ⟨t, rfl⟩
    rw [List.length_append, Nat.add_sub_cancel, List.drop_left]

theorem matchWildcard_iff (p d : GoStr) :
    matchWildcard p d = true ↔
      ∃ S : GoStr, p = '*' :: '.' :: S ∧ ('.' :: S) <:+ d ∧ S.length + 1 < d.length := by
  rcases p with _ | ⟨a, _ | ⟨b, S⟩⟩
  · simp [matchWildcard]
  · simp [matchWildcard]
  · by_cases ha : a = '*'
    · by_cases hb : b = '.'
      · subst ha; subst hb
        have hR : (∃ S' : GoStr, ('*' :: '.' :: S : GoStr) = '*' :: '.' :: S' ∧
            ('.' :: S') <:+ d ∧ S'.length + 1 < d.length) ↔
            (('.' :: S) <:+ d ∧ S.length + 1 < d.length) := by
          constructor
          · rintro ⟨S', hS', h1, h2⟩
            obtain rfl : S = S' := by simpa using hS'
            exact ⟨h1, h2⟩
          · intro h
            exact ⟨S, rfl, h.1, h.2⟩
        rw [hR]
        have hguard : ¬((('*' :: '.' :: S : GoStr)).length < 2 ∨
            (('*' :: '.' :: S : GoStr)).get? 0 ≠ some '*' ∨
            (('*' :: '.' :: S : GoStr)).get? 1 ≠ some '.') := by
          simp
        unfold matchWildcard
        rw [if_neg hguard]
        show (if d.length ≤ ('.' :: S : GoStr).length then false
            else decide (d.drop (d.length - ('.' :: S : GoStr).length) = '.' :: S)) = true ↔ _
        by_cases hlen : d.length ≤ ('.' :: S : GoStr).length
        · rw [if_pos hlen]
          constructor
          · intro h
            exact absurd h (by decide)
          · rintro ⟨-, h2⟩
            simp only [List.length_cons] at hlen
            omega
        · rw [if_neg hlen, decide_eq_true_eq,
            drop_sub_length_eq_iff_suffix ('.' :: S) d]
          have hlt : S.length + 1 < d.length := by
            simp only [List.length_cons] at hlen
            omega
          exact ⟨fun h => ⟨h, hlt⟩, fun h => h.1⟩
      · unfold matchWildcard
        rw [if_pos (Or.inr (Or.inr (by simpa using hb)))]
        constructor
        · intro h
          exact absurd h (by decide)
        · rintro ⟨S', hS', -, -⟩
          injection hS' with h1 h2
          injection h2 with h3 _
          exact (hb h3).elim
    · unfold matchWildcard
      rw [if_pos (Or.inr (Or.inl (by simpa using ha)))]
      constructor
      · intro h
        exact absurd h (by decide)
      · rintro ⟨S', hS', -, -⟩
        injection hS' with h1 _
        exact (ha h1).elim

theorem mem_addClient {v : List ClientId} {c x : ClientId} :
    x ∈ addClient v c ↔ x ∈ v ∨ x = c := by
  unfold addClient
  split
  · rename_i h
    constructor
    · exact Or.inl
    · rintro (hx | rfl)
      · exact hx
      · exact h
  · simp

theorem nodup_addClient {v : List ClientId} {c : ClientId} (h : v.Nodup) :
    (addClient v c).Nodup := by
  unfold addClient
  split
  · exact h
  · rename_i hc
    simpa [List.nodup_append] using ⟨h, fun hx => hc hx⟩

theorem mem_foldl_addClient (l acc : List ClientId) (x : ClientId) :
    x ∈ l.foldl addClient acc ↔ x ∈ acc ∨ x ∈ l := by
  induction l generalizing acc with
  | nil => simp
  | cons a l ih =>
      rw [List.foldl_cons, ih, mem_addClient]
      simp [List.mem_cons, or_assoc]

theorem mem_wildcardFold (entries : Subscriptions) (d : GoStr)
    (acc : List ClientId) (x : ClientId) :
    x ∈ entries.foldl
        (fun acc e => if matchWildcard e.1 d then e.2.foldl addClient acc else acc) acc ↔
      x ∈ acc ∨ ∃ e ∈ entries, matchWildcard e.1 d = true ∧ x ∈ e.2 := by
  induction entries generalizing acc with
  | nil => simp
  | cons e es ih =>
      rw [List.foldl_cons]
      by_cases h : matchWildcard e.1 d = true
      · rw [if_pos h, ih, mem_foldl_addClient]
        simp only [List.exists_mem_cons_iff, h, true_and]
        tauto
      · rw [if_neg h, ih]
        simp only [List.exists_mem_cons_iff, h, false_and]
        tauto

theorem mem_getSubscribers (st : HubState) (d : GoStr) (c : ClientId) :
    c ∈ getSubscribers st d ↔
      subsMem st.subscriptions d c ∨
        ∃ e ∈ st.subscriptions, matchWildcard e.1 d = true ∧ c ∈ e.2 := by
  unfold getSubscribers subsMem
  cases h : subsLookup st.subscriptions d with
  | none => simp only [h]; rw [mem_wildcardFold]; simp
  | some v =>
      simp only [h]
      rw [mem_wildcardFold, mem_foldl_addClient]
      simp

theorem subsLookup_eq_none_of_not_mem_keys {m : Subscriptions} {k : GoStr}
    (h : k ∉ m.map Prod.fst) : subsLookup m k = none := by
  induction m with
  | nil => rfl
  | cons e es ih =>
      unfold subsLookup
      rw [if_neg, ih]
      · intro hk
        exact h (by simp [hk])
      · intro hk
        exact h (by simp [hk])

theorem subsLookup_eq_some_of_mem {m : Subscriptions} {k : GoStr} {v : List ClientId}
    (hnd : (m.map Prod.fst).Nodup) (h : (k, v) ∈ m) : subsLookup m k = some v := by
  induction m with
  | nil => cases h
  | cons e es ih =>
      have hnd' := hnd
      rw [List.map_cons] at hnd'
      have hcons := List.nodup_cons.mp hnd'
      rcases List.mem_cons.mp h with h | h
      · obtain ⟨k', v'⟩ := e
        obtain ⟨rfl, rfl⟩ : k = k' ∧ v = v' := by
          simpa [Prod.ext_iff] using h
        simp [subsLookup]
      · have hk : k ∈ es.map Prod.fst := List.mem_map.mpr ⟨(k, v), h, rfl⟩
        have hne : k ≠ e.1 := by
          rintro rfl
          exact hcons.1 hk
        unfold subsLookup
        rw [if_neg hne]
        exact ih hcons.2 h

theorem mem_of_subsLookup_eq_some {m : Subscriptions} {k : GoStr} {v : List ClientId}
    (h : subsLookup m k = some v) : (k, v) ∈ m := by
  induction m with
  | nil => cases h
  | cons e es ih =>
      unfold subsLookup at h
      split at h
      · rename_i heq
        obtain rfl : e.2 = v := by simpa using h
        subst heq
        exact List.mem_cons_self _ _
      · exact List.mem_cons.mpr (Or.inr (ih h))

theorem subsLookup_subsInsert_ne {m : Subscriptions} {k k' : GoStr} (c : ClientId)
    (h : k' ≠ k) : subsLookup (subsInsert m k c) k' = subsLookup m k' := by
  induction m with
  | nil => simp [subsInsert, subsLookup, h]
  | cons e es ih =>
      unfold subsInsert
      by_cases hk : k = e.1
      · rw [if_pos hk]
        unfold subsLookup
        rw [if_neg (by rw [← hk]; exact h), if_neg (by rw [← hk]; exact h)]
      · rw [if_neg hk]
        unfold subsLookup
        by_cases hk' : k' = e.1
        · rw [if_pos hk', if_pos hk']
        · rw [if_neg hk', if_neg hk']
          exact ih

theorem subsLookup_subsInsert_self_none {m : Subscriptions} {k : GoStr} (c : ClientId)
    (h : subsLookup m k = none) : subsLookup (subsInsert m k c) k = some [c] := by
  induction m with
  | nil => simp [subsInsert, subsLookup]
  | cons e es ih =>
      unfold subsLookup at h
      unfold subsInsert
      by_cases hk : k = e.1
      · rw [if_pos hk] at h
        cases h
      · rw [if_neg hk] at h
        rw [if_neg hk]
        unfold subsLookup
        rw [if_neg hk]
        exact ih h

theorem subsLookup_subsInsert_self_some {m : Subscriptions} {k : GoStr} {v : List ClientId}
    (c : ClientId) (h : subsLookup m k = some v) :
    subsLookup (subsInsert m k c) k = some (addClient v c) := by
  induction m with
  | nil => cases h
  | cons e es ih =>
      unfold subsLookup at h
      unfold subsInsert
      by_cases hk : k = e.1
      · rw [if_pos hk] at h
        obtain rfl : e.2 = v := by simpa using h
        rw [if_pos hk]
        unfold subsLookup
        rw [if_pos hk]
      · rw [if_neg hk] at h
        rw [if_neg hk]
        unfold subsLookup
        rw [if_neg hk]
        exact ih h

theorem subsMem_subsInsert {m : Subscriptions} {k k' : GoStr} {c x : ClientId} :
    subsMem (subsInsert m k c) k' x ↔ subsMem m k' x ∨ (x = c ∧ k' = k) := by
  by_cases h : k' = k
  · subst h
    cases hm : subsLookup m k' with
    | none =>
        rw [subsMem, subsLookup_subsInsert_self_none c hm]
        simp [subsMem, hm]
    | some v =>
        rw [subsMem, subsLookup_subsInsert_self_some c hm]
        simp [subsMem, hm, mem_addClient]
  · rw [subsMem, subsLookup_subsInsert_ne c h]
    simp [subsMem, h]

theorem subsLookup_subsRemove_ne {m : Subscriptions} {k k' : GoStr} (c : ClientId)
    (h : k' ≠ k) : subsLookup (subsRemove m k c) k' = subsLookup m k' := by
  induction m with
  | nil => rfl
  | cons e es ih =>
      obtain ⟨k'', v⟩ := e
      have hne : k' ≠ k'' → True := fun _ => trivial
      unfold subsRemove
      by_cases hk : k = k''
      · have hne' : k' ≠ k'' := by rw [← hk]; exact h
        rw [if_pos hk]
        by_cases hv : v.filter (fun x => decide (x ≠ c)) = []
        · rw [if_pos hv]
          unfold subsLookup
          rw [if_neg hne']
          cases es with
          | nil => rfl
          | cons e' es' => rfl
        · rw [if_neg hv]
          unfold subsLookup
          rw [if_neg hne', if_neg hne']
      · rw [if_neg hk]
        unfold subsLookup
        by_cases hk' : k' = k''
        · rw [if_pos hk', if_pos hk']
        · rw [if_neg hk', if_neg hk']
          exact ih

theorem keys_subsRemove_sublist (m : Subscriptions) (k : GoStr) (c : ClientId) :
    List.Sublist ((subsRemove m k c).map Prod.fst) (m.map Prod.fst) := by
  induction m with
  | nil => simp [subsRemove]
  | cons e es ih =>
      obtain ⟨k', v⟩ := e
      unfold subsRemove
      by_cases hk : k = k'
      · rw [if_pos hk]
        by_cases hv : v.filter (fun x => decide (x ≠ c)) = []
        · rw [if_pos hv]
          simp only [List.map_cons]
          exact List.Sublist.cons _ (List.Sublist.refl _)
        · rw [if_neg hv]
          simp only [List.map_cons]
          exact List.Sublist.cons₂ _ (List.Sublist.refl _)
      · rw [if_neg hk]
        simp only [List.map_cons]
        exact List.Sublist.cons₂ _ ih

theorem keysNodup_subsRemove {m : Subscriptions} {k : GoStr} {c : ClientId}
    (hnd : (m.map Prod.fst).Nodup) : ((subsRemove m k c).map Prod.fst).Nodup :=
  (keys_subsRemove_sublist m k c).nodup hnd

theorem mem_keys_subsInsert {m : Subscriptions} {k a : GoStr} {c : ClientId} :
    a ∈ (subsInsert m k c).map Prod.fst ↔ a ∈ m.map Prod.fst ∨ a = k := by
  induction m with
  | nil => simp [subsInsert]
  | cons e es ih =>
      unfold subsInsert
      by_cases hk : k = e.1
      · rw [if_pos hk]
        subst hk
        simp
        tauto
      · rw [if_neg hk]
        simp [ih]
        tauto

theorem keysNodup_subsInsert {m : Subscriptions} {k : GoStr} {c : ClientId}
    (hnd : (m.map Prod.fst).Nodup) : ((subsInsert m k c).map Prod.fst).Nodup := by
  induction m with
  | nil => simp [subsInsert]
  | cons e es ih =>
      have hnd' := hnd
      rw [List.map_cons] at hnd'
      have h1 := List.nodup_cons.mp hnd'
      unfold subsInsert
      by_cases hk : k = e.1
      · rw [if_pos hk]
        rw [List.map_cons]
        exact List.nodup_cons.mpr ⟨h1.1, h1.2⟩
      · rw [if_neg hk]
        rw [List.map_cons]
        have h2 : e.1 ∉ (subsInsert es k c).map Prod.fst := by
          rw [mem_keys_subsInsert]
          rintro (h | rfl)
          · exact h1.1 h
          · exact hk rfl
        exact List.nodup_cons.mpr ⟨h2, ih h1.2⟩

theorem mem_filter_ne {v : List ClientId} {c x : ClientId} :
    x ∈ v.filter (fun y => decide (y ≠ c)) ↔ x ∈ v ∧ x ≠ c := by
  simp [List.mem_filter]

theorem subsLookup_subsRemove_self {m : Subscriptions} {k : GoStr} {c : ClientId}
    (hnd : (m.map Prod.fst).Nodup) :
    subsLookup (subsRemove m k c) k =
      match subsLookup m k with
      | none => none
      | some v =>
          if v.filter (fun y => decide (y ≠ c)) = [] then none
          else some (v.filter (fun y => decide (y ≠ c))) := by
  induction m with
  | nil => rfl
  | cons e es ih =>
      obtain ⟨k', v⟩ := e
      have hnd' := hnd
      rw [List.map_cons] at hnd'
      have hcons := List.nodup_cons.mp hnd'
      unfold subsRemove
      by_cases hk : k = k'
      · rw [if_pos hk]
        have hlook : subsLookup ((k', v) :: es) k = some v := by
          unfold subsLookup
          rw [if_pos hk]
        rw [hlook]
        by_cases hv : v.filter (fun y => decide (y ≠ c)) = []
        · rw [if_pos hv]
          have hnone : subsLookup es k = none :=
            subsLookup_eq_none_of_not_mem_keys (by rw [hk]; exact hcons.1)
          rw [hnone]
          show (none : Option (List ClientId)) =
            if v.filter (fun y => decide (y ≠ c)) = [] then none
            else some (v.filter (fun y => decide (y ≠ c)))
          rw [if_pos hv]
        · rw [if_neg hv]
          have hlook2 : subsLookup ((k', v.filter (fun y => decide (y ≠ c))) :: es) k =
              some (v.filter (fun y => decide (y ≠ c))) := by
            unfold subsLookup
            rw [if_pos hk]
          rw [hlook2]
          show some (v.filter (fun y => decide (y ≠ c))) =
            if v.filter (fun y => decide (y ≠ c)) = [] then none
            else some (v.filter (fun y => decide (y ≠ c)))
          rw [if_neg hv]
      · rw [if_neg hk]
        have hstep : ∀ rest : Subscriptions,
            subsLookup ((k', v) :: rest) k = subsLookup rest k := by
          intro rest
          unfold subsLookup
          rw [if_neg hk]
          cases rest with
          | nil => rfl
          | cons e' es' => rfl
        rw [hstep, hstep]
        exact ih hcons.2

theorem subsMem_subsRemove {m : Subscriptions} {k k' : GoStr} {c x : ClientId}
    (hnd : (m.map Prod.fst).Nodup) :
    subsMem (subsRemove m k c) k' x ↔ subsMem m k' x ∧ ¬(x = c ∧ k' = k) := by
  by_cases h : k' = k
  · subst h
    rw [subsMem, subsLookup_subsRemove_self hnd]
    cases hm : subsLookup m k' with
    | none => simp [subsMem, hm]
    | some v =>
        simp only
        by_cases hv : v.filter (fun y => decide (y ≠ c)) = []
        · rw [if_pos hv]
          constructor
          · rintro ⟨v', hv', -⟩
            cases hv'
          · rintro ⟨⟨v', hv', hx⟩, hne⟩
            rw [hm] at hv'
            obtain rfl : v = v' := by simpa using hv'
            have hxf : x ∈ v.filter (fun y => decide (y ≠ c)) :=
              mem_filter_ne.mpr ⟨hx, fun hxc => hne ⟨hxc, by trivial⟩⟩
            rw [hv] at hxf
            cases hxf
        · rw [if_neg hv]
          constructor
          · rintro ⟨v', hv', hx⟩
            obtain rfl : v.filter (fun y => decide (y ≠ c)) = v' := by simpa using hv'
            obtain ⟨hxv, hxc⟩ := mem_filter_ne.mp hx
            exact ⟨⟨v, hm, hxv⟩, fun hc => hxc hc.1⟩
          · rintro ⟨⟨v', hv', hx⟩, hne⟩
            rw [hm] at hv'
            obtain rfl : v = v' := by simpa using hv'
            exact ⟨_, rfl, mem_filter_ne.mpr ⟨hx, fun hxc => hne ⟨hxc, by trivial⟩⟩⟩
  · rw [subsMem, subsLookup_subsRemove_ne c h]
    simp [subsMem, h]

theorem subsMem_foldInsert (ds : List GoStr) (m : Subscriptions) (c : ClientId)
    (k : GoStr) (x : ClientId) :
    subsMem (ds.foldl (fun m d => subsInsert m d c) m) k x ↔
      subsMem m k x ∨ (x = c ∧ k ∈ ds) := by
  induction ds generalizing m with
  | nil => simp
  | cons d ds ih =>
      rw [List.foldl_cons, ih, subsMem_subsInsert]
      simp only [List.mem_cons]
      tauto

theorem keysNodup_foldInsert (ds : List GoStr) {m : Subscriptions} (c : ClientId)
    (hnd : (m.map Prod.fst).Nodup) :
    (((ds.foldl (fun m d => subsInsert m d c) m).map Prod.fst)).Nodup := by
  induction ds generalizing m with
  | nil => exact hnd
  | cons d ds ih => exact ih (keysNodup_subsInsert hnd)

theorem keysNodup_foldRemove (ds : List GoStr) {m : Subscriptions} (c : ClientId)
    (hnd : (m.map Prod.fst).Nodup) :
    (((ds.foldl (fun m d => subsRemove m d c) m).map Prod.fst)).Nodup := by
  induction ds generalizing m with
  | nil => exact hnd
  | cons d ds ih => exact ih (keysNodup_subsRemove hnd)

theorem subsMem_foldRemove (ds : List GoStr) {m : Subscriptions} (c : ClientId)
    (k : GoStr) (x : ClientId) (hnd : (m.map Prod.fst).Nodup) :
    subsMem (ds.foldl (fun m d => subsRemove m d c) m) k x ↔
      subsMem m k x ∧ ¬(x = c ∧ k ∈ ds) := by
  induction ds generalizing m with
  | nil => simp
  | cons d ds ih =>
      rw [List.foldl_cons, ih (keysNodup_subsRemove hnd), subsMem_subsRemove hnd]
      simp only [List.mem_cons]
      tauto

theorem addClient_ne_nil (v : List ClientId) (c : ClientId) : addClient v c ≠ [] := by
  unfold addClient
  split
  · rename_i h
    exact List.ne_nil_of_mem h
  · simp

theorem valuesOK_subsInsert {m : Subscriptions} {k : GoStr} {c : ClientId}
    (h : ∀ e ∈ m, e.2.Nodup ∧ e.2 ≠ []) :
    ∀ e ∈ subsInsert m k c, e.2.Nodup ∧ e.2 ≠ [] := by
  induction m with
  | nil =>
      intro e he
      unfold subsInsert at he
      obtain rfl : e = (k, [c]) := by simpa using he
      exact ⟨List.nodup_singleton c, by simp⟩
  | cons e' es ih =>
      intro e he
      unfold subsInsert at he
      by_cases hk : k = e'.1
      · rw [if_pos hk] at he
        rcases List.mem_cons.mp he with rfl | he
        · refine ⟨nodup_addClient (h e' (List.mem_cons_self _ _)).1, addClient_ne_nil _ _⟩
        · exact h e (List.mem_cons.mpr (Or.inr he))
      · rw [if_neg hk] at he
        rcases List.mem_cons.mp he with rfl | he
        · exact h e' (List.mem_cons_self _ _)
        · exact ih (fun e'' he'' => h e'' (List.mem_cons.mpr (Or.inr he''))) e he

theorem valuesOK_subsRemove {m : Subscriptions} {k : GoStr} {c : ClientId}
    (h : ∀ e ∈ m, e.2.Nodup ∧ e.2 ≠ []) :
    ∀ e ∈ subsRemove m k c, e.2.Nodup ∧ e.2 ≠ [] := by
  induction m with
  | nil =>
      intro e he
      cases he
  | cons e' es ih =>
      obtain ⟨k', v⟩ := e'
      intro e he
      unfold subsRemove at he
      by_cases hk : k = k'
      · rw [if_pos hk] at he
        by_cases hv : v.filter (fun y => decide (y ≠ c)) = []
        · rw [if_pos hv] at he
          exact h e (List.mem_cons.mpr (Or.inr he))
        · rw [if_neg hv] at he
          rcases List.mem_cons.mp he with rfl | he
          · exact ⟨(h (k', v) (List.mem_cons_self _ _)).1.filter _, hv⟩
          · exact h e (List.mem_cons.mpr (Or.inr he))
      · rw [if_neg hk] at he
        rcases List.mem_cons.mp he with rfl | he
        · exact h _ (List.mem_cons_self _ _)
        · exact ih (fun e'' he'' => h e'' (List.mem_cons.mpr (Or.inr he''))) e he

theorem valuesOK_foldInsert (ds : List GoStr) {m : Subscriptions} (c : ClientId)
    (h : ∀ e ∈ m, e.2.Nodup ∧ e.2 ≠ []) :
    ∀ e ∈ ds.foldl (fun m d => subsInsert m d c) m, e.2.Nodup ∧ e.2 ≠ [] := by
  induction ds generalizing m with
  | nil => exact h
  | cons d ds ih => exact ih (valuesOK_subsInsert h)

theorem valuesOK_foldRemove (ds : List GoStr) {m : Subscriptions} (c : ClientId)
    (h : ∀ e ∈ m, e.2.Nodup ∧ e.2 ≠ []) :
    ∀ e ∈ ds.foldl (fun m d => subsRemove m d c) m, e.2.Nodup ∧ e.2 ≠ [] := by
  induction ds generalizing m with
  | nil => exact h
  | cons d ds ih => exact ih (valuesOK_subsRemove h)

theorem unregisterClient_not_mem {st : HubState} {c : ClientId}
    (h : c ∉ st.clients) : unregisterClient st c = st := by
  unfold unregisterClient
  rw [if_neg h]

theorem unregisterClient_mem {st : HubState} {c : ClientId} (h : c ∈ st.clients) :
    unregisterClient st c =
      { st with
        clients := st.clients.filter (fun x => decide (x ≠ c)),
        subscriptions := (st.domainsOf c).foldl (fun m d => subsRemove m d c) st.subscriptions,
        closeCount := fun x => if x = c then st.closeCount c + 1 else st.closeCount x } := by
  unfold unregisterClient
  rw [if_pos h]

theorem verifySignature_fst_iff (hash : GoStr → GoStr) (pw : GoStr) (tol : Int)
    (sig : GoStr) (ts now : Int) :
    (verifySignature hash pw tol sig ts now).1 = true ↔
      now - tol ≤ ts ∧ ts ≤ now + tol ∧ sig = hash (pw ++ formatInt ts) := by
  unfold verifySignature generateSignature
  by_cases h1 : ts < now - tol ∨ ts > now + tol
  · rw [if_pos h1]
    constructor
    · intro h
      exact absurd h (by decide)
    · rintro ⟨ha, hb, -⟩
      exfalso
      rcases h1 with h | h <;> omega
  · rw [if_neg h1]
    push_neg at h1
    by_cases h2 : sig ≠ hash (pw ++ formatInt ts)
    · rw [if_pos h2]
      constructor
      · intro h
        exact absurd h (by decide)
      · rintro ⟨-, -, hs⟩
        exact (h2 hs).elim
    · rw [if_neg h2]
      push_neg at h2
      exact ⟨fun _ => ⟨by omega, by omega, h2⟩, fun _ => rfl⟩

/-! ## Claims -/

/-- Claim C1: a connection indexed in the registry under pattern `P` is
resolved for domain `D` by `GetSubscribers` exactly when `P` equals `D`, or
`P` is `*.S` with `D` ending in `.S` and `len D > len S + 1`; together with
the spec's three concrete matcher facts. -/
theorem C1_wildcard_resolution :
    (∀ (st : HubState) (c : ClientId) (D : GoStr),
        (st.subscriptions.map Prod.fst).Nodup →
        (c ∈ getSubscribers st D ↔
          ∃ P v, (P, v) ∈ st.subscriptions ∧ c ∈ v ∧ resolvesSpec P D)) ∧
    matchWildcard (str "*.example.com") (str "example.com") = false ∧
    matchWildcard (str "*.example.com") (str "a.example.com") = true ∧
    matchWildcard (str "*.com") (str "com") = false := by
  refine ⟨?_, by decide, by decide, by decide⟩
  intro st c D hnd
  rw [mem_getSubscribers]
  constructor
  · rintro (⟨v, hl, hc⟩ | ⟨e, he, hw, hc⟩)
    · exact ⟨D, v, mem_of_subsLookup_eq_some hl, hc, Or.inl rfl⟩
    · obtain ⟨S, hP, hsuf, hlen⟩ := (matchWildcard_iff e.1 D).mp hw
      exact ⟨e.1, e.2, he, hc, Or.inr ⟨S, hP, hsuf, hlen⟩⟩
  · rintro ⟨P, v, hm, hc, hP | ⟨S, rfl, hsuf, hlen⟩⟩
    · subst hP
      exact Or.inl ⟨v, subsLookup_eq_some_of_mem hnd hm, hc⟩
    · refine Or.inr ⟨(_, v), hm, ?_, hc⟩
      exact (matchWildcard_iff _ D).mpr ⟨S, rfl, hsuf, hlen⟩

/-- Witness for C1 at a concrete registry state. -/
theorem C1_wildcard_resolution_witness :
    (demoHub.subscriptions.map Prod.fst).Nodup ∧
    (2 ∈ getSubscribers demoHub (str "b.example.com") ↔
      ∃ P v, (P, v) ∈ demoHub.subscriptions ∧ 2 ∈ v ∧
        resolvesSpec P (str "b.example.com")) :=
  ⟨by decide, C1_wildcard_resolution.1 demoHub 2 (str "b.example.com") (by decide)⟩

/-- Claim C2, evaluated at the failing input: a client subscribed only under
the literal pattern `*` is resolved for no ordinary domain, and a broadcast
for `example.com` reaches zero subscribers — the `*` pattern matches neither
the exact branch nor `matchWildcard`, so the registered `*` subscriber never
receives watcher-triggered pushes. -/
theorem C2_star_subscriber_not_resolved :
    1 ∈ starHub.clients ∧ str "*" ∈ starHub.domainsOf 1 ∧
    getSubscribers starHub (str "example.com") = [] ∧
    ∀ hasSpace : ClientId → Bool,
      broadcastCert starHub hasSpace (str "example.com") = 0 := by
  refine ⟨by decide, by decide, by decide, ?_⟩
  intro f
  unfold broadcastCert
  rw [(by decide : getSubscribers starHub (str "example.com") = [])]
  rfl

/-- Claim C5: deregistering a registered connection twice is a no-op the
second time, and the connection's send channel is closed exactly once. -/
theorem C5_deregister_idempotent (st : HubState) (c : ClientId)
    (hc : c ∈ st.clients) (h0 : st.closeCount c = 0) :
    unregisterClient (unregisterClient st c) c = unregisterClient st c ∧
    (unregisterClient st c).closeCount c = 1 := by
  have h2 : c ∉ (unregisterClient st c).clients := by
    rw [unregisterClient_mem hc]
    simp [List.mem_filter]
  refine ⟨unregisterClient_not_mem h2, ?_⟩
  rw [unregisterClient_mem hc]
  simp [h0]

/-- Witness for C5 at a concrete registry state. -/
theorem C5_deregister_idempotent_witness :
    (1 ∈ demoHub.clients ∧ demoHub.closeCount 1 = 0) ∧
    (unregisterClient (unregisterClient demoHub 1) 1 = unregisterClient demoHub 1 ∧
      (unregisterClient demoHub 1).closeCount 1 = 1) :=
  ⟨⟨by decide, rfl⟩, C5_deregister_idempotent demoHub 1 (by decide) rfl⟩

/-- Claim C6, counterexample: a reachable re-authentication sequence — the
session dispatches `auth` with no authenticated guard, so a second
`HandleAuth` overwrites the connection's domain list and re-registers —
leaves a stale `a.com` index entry; the subsequent deregistration iterates
only the current domain list, so the connection stays in `a.com`'s
subscriber set: removal does not remove it from every pattern's set. -/
theorem C6_subscription_index_counterexample :
    reAuthHub.subscriptions = [(str "a.com", [1]), (str "b.com", [1])] ∧
    reAuthHub.domainsOf 1 = [str "b.com"] ∧
    1 ∉ (unregisterClient reAuthHub 1).clients ∧
    (str "a.com", [1]) ∈ (unregisterClient reAuthHub 1).subscriptions := by
  refine ⟨by decide, by decide, by decide, by decide⟩

/-- Claim C6 as amended: register, deregister and updateSubscription each
preserve the index well-formedness — every connection indexed at most once
per (pattern, connection) pair and empty pattern entries deleted — from any
well-formed index, with no liveness assumption on the client; and
deregistering a live connection removes it from every pattern's subscriber
set exactly under the covering condition that each index entry holding it is
listed in its current domain list (maintained in normal operation, violated
by the re-authentication counterexample). -/
theorem C6_subscription_index_amended :
    (∀ (st : HubState) (c : ClientId), IndexWF st.subscriptions →
        IndexWF (registerClient st c).subscriptions) ∧
    (∀ (st : HubState) (c : ClientId), IndexWF st.subscriptions →
        IndexWF (unregisterClient st c).subscriptions) ∧
    (∀ (st : HubState) (c : ClientId) (newDomains : List GoStr),
        IndexWF st.subscriptions →
        IndexWF (updateSubscription st c newDomains).subscriptions) ∧
    (∀ (st : HubState) (c : ClientId),
        (st.subscriptions.map Prod.fst).Nodup → c ∈ st.clients → Covered st c →
        ∀ e ∈ (unregisterClient st c).subscriptions, c ∉ e.2) := by
  refine ⟨?_, ?_, ?_, ?_⟩
  · rintro st c ⟨hnd, hv⟩
    exact ⟨keysNodup_foldInsert (st.domainsOf c) c hnd,
      valuesOK_foldInsert (st.domainsOf c) c hv⟩
  · rintro st c ⟨hnd, hv⟩
    by_cases hc : c ∈ st.clients
    · rw [unregisterClient_mem hc]
      exact ⟨keysNodup_foldRemove (st.domainsOf c) c hnd,
        valuesOK_foldRemove (st.domainsOf c) c hv⟩
    · rw [unregisterClient_not_mem hc]
      exact ⟨hnd, hv⟩
  · rintro st c newDomains ⟨hnd, hv⟩
    exact ⟨keysNodup_foldInsert newDomains c (keysNodup_foldRemove (st.domainsOf c) c hnd),
      valuesOK_foldInsert newDomains c (valuesOK_foldRemove (st.domainsOf c) c hv)⟩
  · intro st c hnd hc hcov
    rw [unregisterClient_mem hc]
    intro e he hcmem
    have hnd2 := keysNodup_foldRemove (st.domainsOf c) c hnd
    have hm : subsMem ((st.domainsOf c).foldl (fun m d => subsRemove m d c)
        st.subscriptions) e.1 c :=
      ⟨e.2, subsLookup_eq_some_of_mem hnd2 he, hcmem⟩
    rw [subsMem_foldRemove _ c _ _ hnd] at hm
    obtain ⟨⟨v, hlv, hxv⟩, hnot⟩ := hm
    exact hnot ⟨rfl, hcov (e.1, v) (mem_of_subsLookup_eq_some hlv) hxv⟩

/-- Witness for C6's amended claim: registration of a fresh, not-yet-live
client preserves the index well-formedness, and deregistration of a live,
covered client clears it from every subscriber set. -/
theorem C6_subscription_index_amended_witness :
    (IndexWF demoHub.subscriptions ∧ 3 ∉ demoHub.clients ∧
      IndexWF (registerClient demoHub 3).subscriptions) ∧
    ((demoHub.subscriptions.map Prod.fst).Nodup ∧ 1 ∈ demoHub.clients ∧
      Covered demoHub 1 ∧
      ∀ e ∈ (unregisterClient demoHub 1).subscriptions, 1 ∉ e.2) :=
  ⟨⟨by decide, by decide, C6_subscription_index_amended.1 demoHub 3 (by decide)⟩,
    ⟨by decide, by decide, by decide,
      C6_subscription_index_amended.2.2.2 demoHub 1 (by decide) (by decide) (by decide)⟩⟩

/-- Claim C4: authentication is accepted exactly when the message timestamp
lies within the tolerance window of the server's current time and the
signature equals the hash of the shared secret concatenated with the decimal
timestamp string; on success the connection is registered with the Hub under
the declared identity and initial subscriptions, on failure a rejection is
sent and neither the session nor the Hub changes. -/
theorem C4_authentication (hash : GoStr → GoStr) (password : GoStr) (tolerance : Int)
    (st : HubState) (c : ClientId) (cs : ClientState) (req : AuthRequest)
    (ts now : Int) :
    ((handleAuth hash password tolerance st c cs req ts now).accepted = true ↔
      now - tolerance ≤ ts ∧ ts ≤ now + tolerance ∧
        req.signature = hash (password ++ formatInt ts)) ∧
    ((handleAuth hash password tolerance st c cs req ts now).accepted = true →
      (handleAuth hash password tolerance st c cs req ts now).client =
        ⟨req.clientID, req.domains, true⟩ ∧
      c ∈ (handleAuth hash password tolerance st c cs req ts now).hub.clients ∧
      (handleAuth hash password tolerance st c cs req ts now).hub.domainsOf c =
        req.domains ∧
      (∀ d ∈ req.domains,
        subsMem (handleAuth hash password tolerance st c cs req ts now).hub.subscriptions
          d c) ∧
      (handleAuth hash password tolerance st c cs req ts now).response =
        (true, str "认证成功")) ∧
    ((handleAuth hash password tolerance st c cs req ts now).accepted = false →
      (handleAuth hash password tolerance st c cs req ts now).client = cs ∧
      (handleAuth hash password tolerance st c cs req ts now).hub = st ∧
      (handleAuth hash password tolerance st c cs req ts now).response.1 = false) := by
  by_cases hok : (verifySignature hash password tolerance req.signature ts now).1 = true
  · have hred : handleAuth hash password tolerance st c cs req ts now =
        { client := ⟨req.clientID, req.domains, true⟩,
          hub := registerClient
            { st with
              domainsOf := fun x => if x = c then req.domains else st.domainsOf x } c,
          accepted := true,
          response := (true, str "认证成功") } := by
      unfold handleAuth
      rw [if_pos hok]
    rw [hred]
    refine ⟨?_, ?_, ?_⟩
    · exact ⟨fun _ => (verifySignature_fst_iff hash password tolerance
          req.signature ts now).mp hok, fun _ => rfl⟩
    · intro _
      refine ⟨rfl, mem_addClient.mpr (Or.inr rfl), ?_, ?_, rfl⟩
      · show (if c = c then req.domains else st.domainsOf c) = req.domains
        rw [if_pos rfl]
      · intro d hd
        show subsMem ((if c = c then req.domains else st.domainsOf c).foldl
            (fun m d => subsInsert m d c) st.subscriptions) d c
        rw [if_pos rfl, subsMem_foldInsert]
        exact Or.inr ⟨rfl, hd⟩
    · intro h
      simp at h
  · have hred : handleAuth hash password tolerance st c cs req ts now =
        { client := cs, hub := st, accepted := false,
          response := (false,
            (verifySignature hash password tolerance req.signature ts now).2) } := by
      unfold handleAuth
      rw [if_neg hok]
    rw [hred]
    refine ⟨?_, ?_, fun _ => ⟨rfl, rfl, rfl⟩⟩
    · constructor
      · intro h
        simp at h
      · intro hwin
        exact (hok ((verifySignature_fst_iff hash password tolerance
          req.signature ts now).mpr hwin)).elim
    · intro h
      simp at h

/-- Witness for C4: a concrete accepted authentication. -/
theorem C4_authentication_witness :
    (handleAuth idHash (str "pw") 30 demoHub 3 ⟨str "", [], false⟩
      ⟨str "cli", str "pw1000", [str "a.com"]⟩ 1000 1000).accepted = true :=
  (C4_authentication idHash (str "pw") 30 demoHub 3 ⟨str "", [], false⟩
      ⟨str "cli", str "pw1000", [str "a.com"]⟩ 1000 1000).1.mpr
    ⟨by decide, by decide, by decide⟩

theorem mem_syncAllDomains (base : BaseDir) (nm hs : GoStr → Bool)
    (cts : List (GoStr × Int)) (D : GoStr) :
    D ∈ syncAllDomains base nm hs cts ↔
      readServerTimestamp base D ≠ 0 ∧
      tsLookup cts D < readServerTimestamp base D ∧
      pushCertToDomain base nm hs D = true ∧
      ∃ dir ∈ base, dir.name = D := by
  unfold syncAllDomains
  rw [List.mem_filterMap]
  constructor
  · rintro ⟨dir, hdir, hsome⟩
    by_cases h0 : readServerTimestamp base dir.name = 0
    · rw [if_pos h0] at hsome
      cases hsome
    · rw [if_neg h0] at hsome
      by_cases h1 : tsLookup cts dir.name < readServerTimestamp base dir.name
      · rw [if_pos h1] at hsome
        by_cases h2 : pushCertToDomain base nm hs dir.name = true
        · rw [if_pos h2] at hsome
          obtain rfl : dir.name = D := by simpa using hsome
          exact ⟨h0, h1, h2, dir, hdir, rfl⟩
        · rw [if_neg h2] at hsome
          cases hsome
      · rw [if_neg h1] at hsome
        cases hsome
  · rintro ⟨h0, h1, h2, dir, hdir, rfl⟩
    refine ⟨dir, hdir, ?_⟩
    rw [if_neg h0, if_pos h1, if_pos h2]

theorem mem_handleSyncRequest (base : BaseDir) (nm hs : GoStr → Bool)
    (subs : List GoStr) (cts : List (GoStr × Int)) (D : GoStr) :
    D ∈ handleSyncRequest base nm hs subs cts ↔
      readServerTimestamp base D ≠ 0 ∧
      tsLookup cts D < readServerTimestamp base D ∧
      pushCertToDomain base nm hs D = true ∧
      ((D ≠ str "*" ∧ D ∈ subs) ∨
        (str "*" ∈ subs ∧ ∃ dir ∈ base, dir.name = D)) := by
  unfold handleSyncRequest
  rw [List.mem_flatten]
  constructor
  · rintro ⟨l, hl, hD⟩
    obtain ⟨dom, hdom, rfl⟩ := List.mem_map.mp hl
    unfold syncOneDomain at hD
    by_cases hstar : dom = str "*"
    · rw [if_pos hstar] at hD
      rw [mem_syncAllDomains] at hD
      exact ⟨hD.1, hD.2.1, hD.2.2.1, Or.inr ⟨hstar ▸ hdom, hD.2.2.2⟩⟩
    · rw [if_neg hstar] at hD
      by_cases h0 : readServerTimestamp base dom = 0
      · rw [if_pos h0] at hD
        cases hD
      · rw [if_neg h0] at hD
        by_cases h1 : tsLookup cts dom < readServerTimestamp base dom
        · rw [if_pos h1] at hD
          by_cases h2 : pushCertToDomain base nm hs dom = true
          · rw [if_pos h2] at hD
            obtain rfl : D = dom := by simpa using hD
            exact ⟨h0, h1, h2, Or.inl ⟨hstar, hdom⟩⟩
          · rw [if_neg h2] at hD
            cases hD
        · rw [if_neg h1] at hD
          cases hD
  · rintro ⟨h0, h1, h2, ⟨hne, hmem⟩ | ⟨hstar, hdirs⟩⟩
    · refine ⟨syncOneDomain base nm hs cts D, List.mem_map.mpr ⟨D, hmem, rfl⟩, ?_⟩
      unfold syncOneDomain
      rw [if_neg hne, if_neg h0, if_pos h1, if_pos h2]
      exact List.mem_singleton.mpr rfl
    · refine ⟨syncOneDomain base nm hs cts (str "*"),
        List.mem_map.mpr ⟨str "*", hstar, rfl⟩, ?_⟩
      unfold syncOneDomain
      rw [if_pos rfl, mem_syncAllDomains]
      exact ⟨h0, h1, h2, hdirs⟩

/-- Claim C3, counterexample: on the spec's example state (client timestamps
a.com 100 and b.com 200, server timestamps a.com 150, b.com 200, c.com 50)
with a `*` subscription, in a run where message building and the send buffer
succeed throughout, the sync also pushes `c.com` — its absent client
timestamp is read as 0 and 50 > 0 — so the pushed set is not `a.com` alone. -/
theorem C3_sync_counterexample :
    str "c.com" ∈
      handleSyncRequest syncStore (fun _ => true) (fun _ => true) [str "*"] syncClientTS ∧
    handleSyncRequest syncStore (fun _ => true) (fun _ => true) [str "*"] syncClientTS ≠
      [str "a.com"] := by
  refine ⟨by decide, by decide⟩

/-- Claim C3 as amended: a domain is pushed by the sync exactly when its
server timestamp is nonzero and strictly greater than the client's reported
timestamp (0 when the domain is absent from the client's map), its push
succeeds (non-empty bundle, message built, send buffer not full), and it is
either explicitly subscribed or covered by a `*` subscription and present in
the store; on the spec's example, in an all-success run `a.com` and `c.com`
are pushed and `b.com` is not, while a full send buffer suppresses every
push. -/
theorem C3_sync_amended :
    (∀ (base : BaseDir) (nm hs : GoStr → Bool) (subs : List GoStr)
        (cts : List (GoStr × Int)) (D : GoStr),
      D ∈ handleSyncRequest base nm hs subs cts ↔
        readServerTimestamp base D ≠ 0 ∧
        tsLookup cts D < readServerTimestamp base D ∧
        pushCertToDomain base nm hs D = true ∧
        ((D ≠ str "*" ∧ D ∈ subs) ∨
          (str "*" ∈ subs ∧ ∃ dir ∈ base, dir.name = D))) ∧
    handleSyncRequest syncStore (fun _ => true) (fun _ => true) [str "*"] syncClientTS =
      [str "a.com", str "c.com"] ∧
    handleSyncRequest syncStore (fun _ => true) (fun _ => false) [str "*"] syncClientTS =
      [] :=
  ⟨mem_handleSyncRequest, by decide, by decide⟩

theorem dispatchMessage_unauth (t : GoStr) :
    dispatchMessage t false =
      if t = str "auth" then SessionEffect.handleAuth
      else if t = str "ping" then SessionEffect.sendPong
      else if t = str "cert_ack" then SessionEffect.logAck
      else SessionEffect.sendError401 := by
  unfold dispatchMessage
  split_ifs <;> first | rfl | assumption

/-- Claim C7, counterexample: an unauthenticated `ping` — a message whose
kind is not the authentication request — is answered with a pong, not with
the authentication-required error. -/
theorem C7_unauth_counterexample :
    str "ping" ≠ str "auth" ∧
    dispatchMessage (str "ping") false = SessionEffect.sendPong ∧
    dispatchMessage (str "ping") false ≠ SessionEffect.sendError401 := by
  refine ⟨by decide, by decide, by decide⟩

/-- Claim C7 as amended: while unauthenticated, every message kind other
than the authentication request produces no state change — the session is
not registered and no subscription or status handling runs; kinds other
than ping and cert_ack receive the distinct authentication-required error,
while ping is answered with a pong and cert_ack is merely logged. -/
theorem C7_unauth_amended (t : GoStr) (h : t ≠ str "auth") :
    (dispatchMessage t false = SessionEffect.sendError401 ∨
      dispatchMessage t false = SessionEffect.sendPong ∨
      dispatchMessage t false = SessionEffect.logAck) ∧
    (dispatchMessage t false = SessionEffect.sendError401 ↔
      t ≠ str "ping" ∧ t ≠ str "cert_ack") := by
  rw [dispatchMessage_unauth, if_neg h]
  by_cases h1 : t = str "ping"
  · rw [if_pos h1]
    refine ⟨Or.inr (Or.inl rfl), ?_, ?_⟩
    · intro hh
      exact absurd hh (by decide)
    · rintro ⟨hp, -⟩
      exact (hp h1).elim
  · rw [if_neg h1]
    by_cases h2 : t = str "cert_ack"
    · rw [if_pos h2]
      refine ⟨Or.inr (Or.inr rfl), ?_, ?_⟩
      · intro hh
        exact absurd hh (by decide)
      · rintro ⟨-, hc⟩
        exact (hc h2).elim
    · rw [if_neg h2]
      exact ⟨Or.inl rfl, fun _ => ⟨h1, h2⟩, fun _ => rfl⟩

/-- Witness for C7's amended claim at a concrete privileged message kind. -/
theorem C7_unauth_amended_witness :
    str "status_request" ≠ str "auth" ∧
    ((dispatchMessage (str "status_request") false = SessionEffect.sendError401 ∨
        dispatchMessage (str "status_request") false = SessionEffect.sendPong ∨
        dispatchMessage (str "status_request") false = SessionEffect.logAck) ∧
      (dispatchMessage (str "status_request") false = SessionEffect.sendError401 ↔
        str "status_request" ≠ str "ping" ∧ str "status_request" ≠ str "cert_ack")) :=
  ⟨by decide, C7_unauth_amended (str "status_request") (by decide)⟩

/-- Claim C8, counterexample: the watcher's file-recognition predicate
rejects the timestamp marker file `time.log` (its `.log` extension is not
accepted and it is not among the well-known names). -/
theorem C8_isCertFile_counterexample : isCertFile (str "time.log") = false := by
  decide

/-- Claim C8 as amended: `isCertFile` accepts a filename exactly when it is
one of the fixed well-known certificate names or carries one of the
extensions `.pem`, `.cer`, `.crt`, `.key`; the timestamp marker `time.log`
is not recognized by the watcher. -/
theorem C8_isCertFile_amended (n : GoStr) :
    isCertFile n = true ↔ n ∈ wellKnownCertNames ∨ goExt n ∈ certExts := by
  unfold isCertFile
  by_cases h1 : n ∈ wellKnownCertNames
  · rw [if_pos h1]
    simp [h1]
  · rw [if_neg h1]
    by_cases h2 : goExt n ∈ certExts
    · rw [if_pos h2]
      simp [h1, h2]
    · rw [if_neg h2]
      simp [h1, h2]

/-- Claim C9, counterexample: with a wildcard entry listed before an exact
one, `findSiteConfig` returns the wildcard entry for `a.example.com` even
though an exact-match entry exists in the list. -/
theorem C9_siteConfig_counterexample :
    findSiteConfig [siteWild, siteExact] (str "a.example.com") = some siteWild ∧
    siteExact ∈ [siteWild, siteExact] ∧
    siteExact.domain = str "a.example.com" ∧
    siteWild.domain ≠ str "a.example.com" := by
  refine ⟨by decide, by decide, by decide, by decide⟩

/-- Claim C9 as amended: `findSiteConfig` returns the first entry in
configured order that matches the pushed domain exactly or via its `*.`
suffix; an exact-match entry wins only when it precedes every matching
wildcard entry. -/
theorem C9_siteConfig_amended (sites : List SiteDeployConfig) (domain : GoStr)
    (site : SiteDeployConfig) :
    findSiteConfig sites domain = some site ↔
      ∃ pre post, sites = pre ++ site :: post ∧ siteMatches site domain ∧
        ∀ s ∈ pre, ¬ siteMatches s domain := by
  induction sites with
  | nil =>
      constructor
      · intro h
        cases h
      · rintro ⟨pre, post, heq, -, -⟩
        cases pre <;> cases heq
  | cons s rest ih =>
      unfold findSiteConfig
      by_cases h1 : s.domain = domain
      · rw [if_pos h1]
        constructor
        · intro h
          obtain rfl : s = site := by simpa using h
          exact ⟨[], rest, rfl, Or.inl h1, by simp⟩
        · rintro ⟨pre, post, heq, hm, hpre⟩
          cases pre with
          | nil =>
              obtain ⟨rfl, -⟩ : s = site ∧ rest = post := by simpa using heq
              rfl
          | cons p pre' =>
              obtain ⟨rfl, -⟩ : s = p ∧ rest = pre' ++ site :: post := by
                simpa using heq
              exact (hpre s (List.mem_cons_self _ _) (Or.inl h1)).elim
      · by_cases h2 : (str "*.") <+: s.domain ∧ (s.domain.drop 1) <:+ domain
        · rw [if_neg h1, if_pos h2]
          constructor
          · intro h
            obtain rfl : s = site := by simpa using h
            exact ⟨[], rest, rfl, Or.inr h2, by simp⟩
          · rintro ⟨pre, post, heq, hm, hpre⟩
            cases pre with
            | nil =>
                obtain ⟨rfl, -⟩ : s = site ∧ rest = post := by simpa using heq
                rfl
            | cons p pre' =>
                obtain ⟨rfl, -⟩ : s = p ∧ rest = pre' ++ site :: post := by
                  simpa using heq
                exact (hpre s (List.mem_cons_self _ _) (Or.inr h2)).elim
        · rw [if_neg h1, if_neg h2, ih]
          constructor
          · rintro ⟨pre, post, heq, hm, hpre⟩
            refine ⟨s :: pre, post, by rw [heq, List.cons_append], hm, ?_⟩
            rintro s' hs'
            rcases List.mem_cons.mp hs' with rfl | hs'
            · rintro (hmm | hmm)
              · exact h1 hmm
              · exact h2 hmm
            · exact hpre s' hs'
          · rintro ⟨pre, post, heq, hm, hpre⟩
            cases pre with
            | nil =>
                obtain ⟨rfl, -⟩ : s = site ∧ rest = post := by simpa using heq
                rcases hm with hmm | hmm
                · exact (h1 hmm).elim
                · exact (h2 hmm).elim
            | cons p pre' =>
                obtain ⟨rfl, hrest⟩ : s = p ∧ rest = pre' ++ site :: post := by
                  simpa using heq
                exact ⟨pre', post, hrest, hm,
                  fun s' hs' => hpre s' (List.mem_cons.mpr (Or.inr hs'))⟩

/-- Claim C10: every bundle produced by the one-shot cert-request path and
the sync push path contains only the four fixed filenames cert.pem, key.pem,
fullchain.pem and time.log; a watcher-read bundle for a directory holding
chain.pem includes that file while the fixed-name paths never do. -/
theorem C10_fixed_bundle_files :
    (∀ (base : BaseDir) (d n : GoStr),
        n ∈ (collectFixedFiles base d).map Prod.fst → n ∈ fixedCertNames) ∧
    str "chain.pem" ∈ (readCertFiles chainDir (str "example.com")).map Prod.fst ∧
    str "chain.pem" ∉ (collectFixedFiles chainDir (str "example.com")).map Prod.fst := by
  refine ⟨?_, by decide, by decide⟩
  intro base d n hn
  unfold collectFixedFiles at hn
  cases h : findDir base d with
  | none =>
      rw [h] at hn
      cases hn
  | some dir =>
      rw [h] at hn
      obtain ⟨⟨n', content⟩, hmem, rfl⟩ := List.mem_map.mp hn
      obtain ⟨a, ha, hfa⟩ := List.mem_filterMap.mp hmem
      cases hl : lookupFile dir.files a with
      | none =>
          rw [hl] at hfa
          cases hfa
      | some cont =>
          rw [hl] at hfa
          obtain ⟨rfl, rfl⟩ : a = n' ∧ cont = content := by
            simpa [Prod.ext_iff] using hfa
          exact ha

/-- Witness for C10 at a concrete store. -/
theorem C10_fixed_bundle_files_witness :
    str "cert.pem" ∈ (collectFixedFiles chainDir (str "example.com")).map Prod.fst ∧
    str "cert.pem" ∈ fixedCertNames :=
  ⟨by decide,
    C10_fixed_bundle_files.1 chainDir (str "example.com") (str "cert.pem") (by decide)⟩

end AcmeDeliver

